import Mathlib

/-
Shallow embedding of the data pipeline of `src/app.py` (a Streamlit data
story about STEM investment and macroeconomic indicators).

Conventions of the embedding:
  * pandas cells that may be NaN are modelled as `Option ℚ` (`none` = NaN);
  * Python strings are modelled as `String` / `List Char`;
  * `str.replace` (all non-overlapping occurrences, scanned left to right)
    is modelled by `replaceL`, a fuel-based structural recursion;
  * `str.strip` / `str.lower` are modelled character-wise on the ASCII
    range the data uses;
  * DataFrames are lists of rows (structures); `merge`, `groupby ... mean`,
    `dropna` and boolean-mask filtering are modelled by explicit list
    functions that preserve pandas' row semantics (left order, one output
    row per matching pair, NaN fill for unmatched left rows).
Presentation-only columns (e.g. the title-cased `Country` display column)
and the chart rendering itself are outside the embedded pipeline.
-/

/-- Python whitespace characters relevant to `str.strip`. -/
def isPySpace (c : Char) : Bool :=
  c == ' ' || c == '\t' || c == '\n' || c == '\r' || c == '\x0b' || c == '\x0c'

/-- Model of `str.strip()` on the character list. -/
def pyStripL (l : List Char) : List Char :=
  ((l.dropWhile isPySpace).reverse.dropWhile isPySpace).reverse

/-- Model of `str.lower()` (ASCII case folding, as used by the data). -/
def pyLowerL (l : List Char) : List Char :=
  l.map Char.toLower

/-- Boolean test that `pat` is an initial segment of `s`. -/
def isPre : List Char → List Char → Bool
  | [], _ => true
  | _ :: _, [] => false
  | a :: as, b :: bs => a == b && isPre as bs

/-- Boolean test that `pat` occurs as a contiguous substring of `s`
(Python's `pat in s`). -/
def containsPat (pat : List Char) : List Char → Bool
  | [] => pat.isEmpty
  | c :: rest => isPre pat (c :: rest) || containsPat pat rest

/-- Fuel-based scanner implementing Python `str.replace`: at each position,
if the pattern matches, emit the replacement and skip the pattern; otherwise
emit the character and move one position right. One unit of fuel is spent
per emitted block, so `fuel = s.length` always suffices. -/
def replaceFuel : Nat → List Char → List Char → List Char → List Char
  | 0, _, _, s => s
  | _ + 1, _, _, [] => []
  | fuel + 1, pat, rep, c :: rest =>
    if !pat.isEmpty && isPre pat (c :: rest) then
      rep ++ replaceFuel fuel pat rep (rest.drop (pat.length - 1))
    else
      c :: replaceFuel fuel pat rep rest

/-- Model of Python `s.replace(pat, rep)` for a non-empty pattern. -/
def replaceL (s pat rep : List Char) : List Char :=
  replaceFuel s.length pat rep s

/-- The apostrophe character, used by one replacement pattern. -/
def aposChar : Char := Char.ofNat 39

/-- Replacement patterns of `clean` (src/app.py lines 17-25), in source
order. The pattern for China contains an apostrophe. -/
def patRepublicOf : List Char := "republic of ".data
def patOfAmerica : List Char := "of america".data
def patKoreaRep : List Char := "korea, republic of".data
def patCzechia : List Char := "czechia".data
def patVietNam : List Char := "viet nam".data
def patChina : List Char := "people".data ++ [aposChar] ++ "s republic of china".data
def patUSA : List Char := "united states of america".data
def patUS : List Char := "u.s.".data
def patUK : List Char := "uk".data

/-- The ordered replacement rules of `clean`: pattern and replacement,
exactly as chained in src/app.py lines 16-27 (the final space-removal
`replace(" ", "")` is applied after these). -/
def cleanRules : List (List Char × List Char) :=
  [ (patRepublicOf, []),
    (patOfAmerica, []),
    (patKoreaRep, "south korea".data),
    (patCzechia, "czech republic".data),
    (patVietNam, "vietnam".data),
    (patChina, "china".data),
    (patUSA, "united states".data),
    (patUS, "united states".data),
    (patUK, "united kingdom".data) ]

/-- The left-hand patterns of the replacement table. -/
def cleanPatterns : List (List Char) := cleanRules.map (·.1)

/-- Apply the replacement rules in order. -/
def applyRules : List (List Char × List Char) → List Char → List Char
  | [], s => s
  | (pat, rep) :: rules, s => applyRules rules (replaceL s pat rep)

/-- Embedding of `clean` from src/app.py lines 15-27 on the character
list: strip, lower, the nine ordered replacements, then removal of every
space character. -/
def cleanL (l : List Char) : List Char :=
  replaceL (applyRules cleanRules (pyLowerL (pyStripL l))) [' '] []

/-- Embedding of the country-name normalizer `clean` (src/app.py 15-27)
on strings. -/
def clean (s : String) : String := ⟨cleanL s.data⟩

example : clean "Republic of Korea" = "korea" := by rfl
example : clean "South Korea" = "southkorea" := by rfl
example : clean " Czechia " = "czechrepublic" := by rfl
example : clean "U.S." = "unitedstates" := by rfl

/-
Cell values and totality of the normalizer (for the claim about `str(x)`).
-/

/-- A pandas cell value as seen by `clean`: a string, an integer, the float
NaN used for missing cells, or Python `None`. -/
inductive CellValue where
  | strV (s : String)
  | intV (n : Int)
  | nanV
  | noneV
deriving DecidableEq

/-- Python `str(x)` on the cell values modelled here. -/
def pyStr : CellValue → String
  | .strV s => s
  | .intV n => toString n
  | .nanV => "nan"
  | .noneV => "None"

/-- A Python method call `x.strip()` succeeds only when the receiver is a
string; on any other value it raises `AttributeError`. -/
def stripMethod : CellValue → Except String String
  | .strV s => .ok ⟨pyStripL s.data⟩
  | _ => .error "AttributeError"

/-- Embedding of `clean` at the cell level, keeping the partiality of the
method call visible: the body is `str(x).strip().lower().replace(...)...`,
so the `.strip()` receiver is always the string `str(x)`. -/
def cleanCellE (x : CellValue) : Except String String := do
  let s ← stripMethod (.strV (pyStr x))
  pure ⟨replaceL (applyRules cleanRules (pyLowerL s.data)) [' '] []⟩

/-
Data model: the three input tables (rows of the CSVs), with NaN-able
numeric cells as `Option ℚ`.
-/

/-- A row of `RnD_Data_filled.csv`: country string and GBARD value. -/
structure RndRow where
  country : String
  gbard : Option ℚ
deriving DecidableEq

/-- A row of `GDP_Data_filled.csv`: country string and the six fixed year
columns 2020-2025. -/
structure GdpRow where
  country : String
  y2020 : Option ℚ
  y2021 : Option ℚ
  y2022 : Option ℚ
  y2023 : Option ℚ
  y2024 : Option ℚ
  y2025 : Option ℚ
deriving DecidableEq

/-- A row of `Country-Year_Economic_Indicators_filled.csv` after the
`astype(float)` conversions (parsing of decimal strings is upstream of the
embedded pipeline; unparseable cells would raise there). -/
structure EcoRow where
  country : String
  interest : Option ℚ
  stock : Option ℚ
  inflation : Option ℚ
deriving DecidableEq

/-- A row of the aggregated investment table `rnd_mean`. -/
structure RndMeanRow where
  c : String
  gbard : Option ℚ
deriving DecidableEq

/-- A key-value row of a projected indicator table such as
`gdp[["c","GDP_mean"]]` or `eco[["c", col]]`. -/
structure KV where
  c : String
  v : Option ℚ
deriving DecidableEq

/-- A keyed row of the economic-indicator table projected to the three
indicator columns. -/
structure Eco3 where
  c : String
  interest : Option ℚ
  stock : Option ℚ
  inflation : Option ℚ
deriving DecidableEq

/-- A row of the intermediate table `rnd.merge(gdp[["c","GDP_mean"]])`. -/
structure Mg1 where
  c : String
  gbard : Option ℚ
  gdpMean : Option ℚ
deriving DecidableEq

/-- A row of the full overview table `merged` (src/app.py 125-126). -/
structure MgRow where
  c : String
  gbard : Option ℚ
  gdpMean : Option ℚ
  interest : Option ℚ
  stock : Option ℚ
  inflation : Option ℚ
deriving DecidableEq

/-- A row of a per-indicator joined table built by `merge_pair`. -/
structure PairRow where
  c : String
  gbard : Option ℚ
  v : Option ℚ
deriving DecidableEq

/-
Aggregation: `mean` with NaN skipping, `groupby("c").mean()`, and the
row-wise GDP mean.
-/

/-- pandas `mean` over a list of NaN-able cells: NaN cells are excluded
from both the sum and the divisor; the mean of no present values is NaN. -/
def meanOpt (xs : List (Option ℚ)) : Option ℚ :=
  let vs := xs.filterMap id
  if vs.isEmpty then none else some (vs.sum / (vs.length : ℚ))

/-- The year columns of a GDP row, in order. -/
def yearCells (r : GdpRow) : List (Option ℚ) :=
  [r.y2020, r.y2021, r.y2022, r.y2023, r.y2024, r.y2025]

/-- Embedding of `gdp["GDP_mean"] = gdp[["2020",...,"2025"]].mean(axis=1)`
(src/app.py line 33). -/
def gdpMeanVal (r : GdpRow) : Option ℚ := meanOpt (yearCells r)

/-- Lexicographic order on character lists by code point. -/
def leLC : List Char → List Char → Bool
  | [], _ => true
  | _ :: _, [] => false
  | a :: as, b :: bs =>
    if a.toNat < b.toNat then true
    else if b.toNat < a.toNat then false
    else leLC as bs

/-- String order used to sort group keys (pandas sorts groupby keys). -/
def leStr (a b : String) : Bool := leLC a.data b.data

/-- Insert a string into a sorted list. -/
def insertSorted (x : String) : List String → List String
  | [] => [x]
  | y :: ys => if leStr x y then x :: y :: ys else y :: insertSorted x ys

/-- Insertion sort on strings. -/
def sortStr (l : List String) : List String := l.foldr insertSorted []

/-- Remove duplicates from a list of strings, keeping first occurrences;
`seen` accumulates the keys already emitted. -/
def dedupAux (seen : List String) : List String → List String
  | [] => []
  | k :: ks =>
    match seen.contains k with
    | true => dedupAux seen ks
    | false => k :: dedupAux (k :: seen) ks

/-- Distinct elements of a string list, in order of first occurrence. -/
def dedupFirst (l : List String) : List String := dedupAux [] l

/-- The distinct canonical keys of the raw investment table, sorted, as
`groupby("c")` enumerates its groups. -/
def groupKeysSorted (rnd : List RndRow) : List String :=
  sortStr (dedupFirst (rnd.map (fun r => clean r.country)))

/-- The GBARD cells of the raw rows whose country normalizes to `k`. -/
def groupVals (rnd : List RndRow) (k : String) : List (Option ℚ) :=
  (rnd.filter (fun r => clean r.country == k)).map (fun r => r.gbard)

/-- Embedding of
`rnd_mean = rnd.groupby("c", as_index=False)["GBARD_USD_Million"].mean()`
(src/app.py line 40): one row per distinct canonical key, holding the
NaN-skipping mean of that group's GBARD cells. -/
def rndMean (rnd : List RndRow) : List RndMeanRow :=
  (groupKeysSorted rnd).map (fun k => ⟨k, meanOpt (groupVals rnd k)⟩)

example :
    (rndMean [⟨"Germany", some 10⟩, ⟨"germany ", some 20⟩]).map (·.c) =
      ["germany"] := by decide

example :
    meanOpt (groupVals [⟨"Germany", some 10⟩, ⟨"germany ", some 20⟩] "germany") =
      some 15 := by
  simp +decide [groupVals, meanOpt]
  norm_num

/-
Projections of the GDP and economic-indicator tables to keyed columns, as
selected in src/app.py lines 125-126 and 327-330.
-/

/-- Embedding of `gdp[["c","GDP_mean"]]` with `c = clean(Country)`
(src/app.py lines 29 and 33). -/
def gdpProj (gdp : List GdpRow) : List KV :=
  gdp.map (fun r => ⟨clean r.country, gdpMeanVal r⟩)

/-- Embedding of `eco[["c","Interest Rate (%)"]]` (src/app.py line 30). -/
def ecoProjInterest (eco : List EcoRow) : List KV :=
  eco.map (fun r => ⟨clean r.country, r.interest⟩)

/-- Embedding of `eco[["c","Stock Index Value"]]`. -/
def ecoProjStock (eco : List EcoRow) : List KV :=
  eco.map (fun r => ⟨clean r.country, r.stock⟩)

/-- Embedding of `eco[["c","Inflation Rate (%)"]]`. -/
def ecoProjInflation (eco : List EcoRow) : List KV :=
  eco.map (fun r => ⟨clean r.country, r.inflation⟩)

/-- Embedding of `eco[["c","Interest Rate (%)","Stock Index Value",
"Inflation Rate (%)"]]` used by the overview merge. -/
def ecoProj3 (eco : List EcoRow) : List Eco3 :=
  eco.map (fun r => ⟨clean r.country, r.interest, r.stock, r.inflation⟩)

/-
Joins. pandas `merge(on="c")` emits, for each left row in order, one
output row per matching right row (right order); `how="left"` additionally
emits a single NaN-filled row for a left row with no match.
-/

/-- Concatenation of the images of the rows of a list. -/
def cmap (f : α → List β) : List α → List β
  | [] => []
  | a :: l => f a ++ cmap f l

/-- The rows of a keyed table matching a canonical key. -/
def matchesKV (t : List KV) (k : String) : List KV :=
  t.filter (fun g => g.c == k)

/-- The rows of the projected economic-indicator table matching a key. -/
def matchesEco (t : List Eco3) (k : String) : List Eco3 :=
  t.filter (fun e => e.c == k)

/-- Number of rows of a keyed table matching a key. -/
def cntKV (t : List KV) (k : String) : Nat := (matchesKV t k).length

/-- Number of rows of the indicator table matching a key. -/
def cntEco (t : List Eco3) (k : String) : Nat := (matchesEco t k).length

/-- The overview rows a left join emits for one investment row: one row per
matching GDP row, or a single NaN-filled row when nothing matches. -/
def gBlock (G : List KV) (a : RndMeanRow) : List Mg1 :=
  if (matchesKV G a.c).isEmpty then [⟨a.c, a.gbard, none⟩]
  else (matchesKV G a.c).map (fun g => ⟨a.c, a.gbard, g.v⟩)

/-- Embedding of `rnd.merge(gdp[["c","GDP_mean"]], on="c", how="left")`
(src/app.py line 125): every investment row is kept; unmatched rows get a
NaN GDP mean. -/
def leftMergeGdp (L : List RndMeanRow) (G : List KV) : List Mg1 :=
  cmap (fun a => gBlock G a) L

/-- The rows the second left join emits for one intermediate row. -/
def eBlock (E : List Eco3) (m : Mg1) : List MgRow :=
  if (matchesEco E m.c).isEmpty then [⟨m.c, m.gbard, m.gdpMean, none, none, none⟩]
  else (matchesEco E m.c).map (fun e => ⟨m.c, m.gbard, m.gdpMean, e.interest, e.stock, e.inflation⟩)

/-- Embedding of `.merge(eco[["c",...]], on="c", how="left")`
(src/app.py line 126). -/
def leftMergeEco (M : List Mg1) (E : List Eco3) : List MgRow :=
  cmap (fun m => eBlock E m) M

/-- The full overview table `merged` (src/app.py lines 125-126). -/
def mergedTables (rnd : List RndRow) (gdp : List GdpRow) (eco : List EcoRow) : List MgRow :=
  leftMergeEco (leftMergeGdp (rndMean rnd) (gdpProj gdp)) (ecoProj3 eco)

/-- Row predicate of `dropna(subset=["GBARD_USD_Million", key])`: both the
investment cell and the indicator cell are present. -/
def bothPresent (r : PairRow) : Bool := r.gbard.isSome && r.v.isSome

/-- Embedding of `merge_pair` (src/app.py lines 321-325): inner join of the
aggregated investment table with one keyed indicator column, then dropping
rows with a missing value on either side. -/
def mergePair (L : List RndMeanRow) (ind : List KV) : List PairRow :=
  (cmap (fun a => (matchesKV ind a.c).map (fun g => ⟨a.c, a.gbard, g.v⟩)) L).filter
    bothPresent

/-- The per-indicator joined table `gdp_df` (src/app.py line 327). -/
def gdpDf (rnd : List RndRow) (gdp : List GdpRow) : List PairRow :=
  mergePair (rndMean rnd) (gdpProj gdp)

/-- The per-indicator joined table `int_df` (src/app.py line 328). -/
def intDf (rnd : List RndRow) (eco : List EcoRow) : List PairRow :=
  mergePair (rndMean rnd) (ecoProjInterest eco)

/-- The per-indicator joined table `inf_df` (src/app.py line 329). -/
def infDf (rnd : List RndRow) (eco : List EcoRow) : List PairRow :=
  mergePair (rndMean rnd) (ecoProjInflation eco)

/-- The per-indicator joined table `stk_df` (src/app.py line 330). -/
def stkDf (rnd : List RndRow) (eco : List EcoRow) : List PairRow :=
  mergePair (rndMean rnd) (ecoProjStock eco)

/-- Embedding of the country multiselect filter (src/app.py lines 332-336):
`if countries:` is Python truthiness, so an empty selection applies no
filter; otherwise each table is masked by `isin(countries)`. -/
def applyCountryFilter (sel : List String) (df : List PairRow) : List PairRow :=
  if sel.isEmpty then df else df.filter (fun r => sel.contains r.c)

/-- Outcome of the per-indicator analysis step around src/app.py 338-352. -/
inductive AnalysisOutcome where
  | chartWithTrendline (df : List PairRow) : AnalysisOutcome
  | insufficientData : AnalysisOutcome
deriving DecidableEq

/-- Embedding of the analysis step for one indicator (src/app.py 338-352):
the source calls `px.scatter(df, ..., trendline="ols")` unconditionally on
the joined (and possibly country-filtered) table. There is no row-count
guard and no "insufficient data" / "not enough data" branch anywhere in the
source, so the outcome is a trendline chart for every input table. -/
def analysisStep (df : List PairRow) : AnalysisOutcome :=
  .chartWithTrendline df

/-
Concrete datasets used by witnesses and counterexamples.
-/

/-- One-country investment table. -/
def exRnd1 : List RndRow := [⟨"Japan", some 5⟩]

/-- One-country GDP table matching `exRnd1`. -/
def exGdp1 : List GdpRow := [⟨"Japan", some 1, none, none, none, none, none⟩]

/-- One-country indicator table matching `exRnd1`. -/
def exEco1 : List EcoRow := [⟨"Japan", some 2, some 3, some 4⟩]

/-- Investment table whose two raw rows normalize to one key. -/
def exRnd2 : List RndRow := [⟨"Germany", some 10⟩, ⟨"germany ", some 20⟩]

/-- Investment table with one row for the key shared by the duplicate GDP
countries below. -/
def exRndCz : List RndRow := [⟨"Czechia", some 1⟩]

/-- GDP table whose two distinct raw country strings both normalize to the
canonical key "czechrepublic". -/
def exGdpDup : List GdpRow :=
  [⟨"Czechia", some 1, none, none, none, none, none⟩,
   ⟨"Czech Republic", some 2, none, none, none, none, none⟩]

example : (mergedTables exRndCz exGdpDup []).length = 2 := by decide
example : (rndMean exRndCz).length = 1 := by decide
example : (gdpDf exRnd1 exGdp1).length = 1 := by decide

/-
Helper lemmas.
-/

/-- The raw country strings appearing in the replacement table of `clean`:
the nine left-hand patterns and the distinct replacement spellings. -/
def aliasStrings : List String :=
  [⟨patRepublicOf⟩, ⟨patOfAmerica⟩, ⟨patKoreaRep⟩, ⟨patCzechia⟩, ⟨patVietNam⟩,
   ⟨patChina⟩, ⟨patUSA⟩, ⟨patUS⟩, ⟨patUK⟩,
   "south korea", "czech republic", "vietnam", "china", "united states",
   "united kingdom"]

lemma insertSorted_perm (x : String) (l : List String) :
    List.Perm (insertSorted x l) (x :: l) := by
  induction l with
  | nil => exact List.Perm.refl _
  | cons y ys ih =>
    cases h : leStr x y
    · simp only [insertSorted, h, Bool.false_eq_true, if_false]
      exact (ih.cons y).trans (List.Perm.swap x y ys)
    · simp [insertSorted, h]

lemma sortStr_perm (l : List String) : List.Perm (sortStr l) l := by
  induction l with
  | nil => exact List.Perm.refl _
  | cons a l ih => exact (insertSorted_perm a (sortStr l)).trans (ih.cons a)

lemma dedupAux_spec (l : List String) :
    ∀ seen : List String,
      (dedupAux seen l).Nodup ∧ ∀ x ∈ dedupAux seen l, x ∉ seen := by
  induction l with
  | nil => intro seen; exact ⟨List.nodup_nil, by intro x hx; cases hx⟩
  | cons k ks ih =>
    intro seen
    cases hk : seen.contains k
    · have hkmem : k ∉ seen := by simpa using hk
      constructor
      · simp only [dedupAux, hk]
        refine List.nodup_cons.mpr ⟨?_, (ih (k :: seen)).1⟩
        intro hmem
        exact (ih (k :: seen)).2 k hmem (List.mem_cons_self k seen)
      · intro x hx
        simp only [dedupAux, hk] at hx
        rcases List.mem_cons.mp hx with rfl | hx'
        · exact hkmem
        · intro hxseen
          exact (ih (k :: seen)).2 x hx' (List.mem_cons_of_mem k hxseen)
    · simpa only [dedupAux, hk] using ih seen

lemma groupKeysSorted_nodup (rnd : List RndRow) :
    (groupKeysSorted rnd).Nodup :=
  (sortStr_perm _).nodup_iff.mpr (dedupAux_spec _ []).1

lemma replaceFuel_not_contains (pat rep : List Char) :
    ∀ (fuel : Nat) (s : List Char), containsPat pat s = false →
      replaceFuel fuel pat rep s = s := by
  intro fuel
  induction fuel with
  | zero => intro s _; rfl
  | succ n ih =>
    intro s h
    cases s with
    | nil => rfl
    | cons c rest =>
      rw [containsPat, Bool.or_eq_false_iff] at h
      rw [replaceFuel, if_neg (by simp [h.1])]
      rw [ih rest h.2]

lemma replaceFuel_space :
    ∀ (fuel : Nat) (s : List Char), s.length ≤ fuel →
      replaceFuel fuel [' '] [] s = s.filter (fun c => !(c == ' ')) := by
  intro fuel
  induction fuel with
  | zero =>
    intro s h
    have : s = [] := List.eq_nil_of_length_eq_zero (Nat.le_zero.mp h)
    subst this; rfl
  | succ n ih =>
    intro s h
    cases s with
    | nil => rfl
    | cons c rest =>
      have hlen : rest.length ≤ n := by
        simp only [List.length_cons] at h
        omega
      by_cases hc : c = ' '
      · subst hc
        rw [replaceFuel, if_pos (by simp [isPre])]
        simp only [List.length_cons, List.length_nil, Nat.zero_add,
          Nat.add_sub_cancel, Nat.sub_self, List.drop_zero, List.nil_append]
        rw [ih rest hlen]
        simp [List.filter_cons]
      · have hne : (' ' == c) = false := by
          simp only [beq_eq_false_iff_ne, ne_eq]
          exact fun hh => hc hh.symm
        rw [replaceFuel, if_neg (by simp [isPre, hne])]
        rw [ih rest hlen]
        simp [List.filter_cons, hc]

lemma replaceL_not_contains (s pat rep : List Char)
    (h : containsPat pat s = false) : replaceL s pat rep = s :=
  replaceFuel_not_contains pat rep s.length s h

lemma replaceL_space (s : List Char) :
    replaceL s [' '] [] = s.filter (fun c => !(c == ' ')) :=
  replaceFuel_space s.length s (Nat.le_refl _)

/-- The lower-cased, stripped form of a raw string, before the replacement
rules and the space removal. -/
def preCleanL (s : String) : List Char := pyLowerL (pyStripL s.data)

lemma cmap_append (f : α → List β) (l1 l2 : List α) :
    cmap f (l1 ++ l2) = cmap f l1 ++ cmap f l2 := by
  induction l1 with
  | nil => rfl
  | cons a l ih => simp [cmap, ih]

lemma cmap_cons (f : α → List β) (a : α) (l : List α) :
    cmap f (a :: l) = f a ++ cmap f l := rfl

/-- Number of overview rows a left join emits for one left row: one per
match, or one NaN-filled row when there is no match. -/
lemma blockLen {α β : Type} (ms : List α) (x : β) (f : α → β) :
    (if ms.isEmpty then [x] else ms.map f).length = max 1 ms.length := by
  cases ms with
  | nil => simp
  | cons a l =>
    simp only [List.isEmpty_cons, Bool.false_eq_true, if_false,
      List.length_map, List.length_cons]
    omega

lemma gBlock_len (G : List KV) (a : RndMeanRow) :
    (gBlock G a).length = max 1 (cntKV G a.c) :=
  blockLen _ _ _

lemma eBlock_len (E : List Eco3) (m : Mg1) :
    (eBlock E m).length = max 1 (cntEco E m.c) :=
  blockLen _ _ _

lemma gBlock_key (G : List KV) (a : RndMeanRow) :
    ∀ m ∈ gBlock G a, m.c = a.c := by
  intro m hm
  unfold gBlock at hm
  by_cases h : (matchesKV G a.c).isEmpty
  · rw [if_pos h] at hm
    rcases List.mem_singleton.mp hm with rfl
    rfl
  · rw [if_neg h] at hm
    rcases List.mem_map.mp hm with ⟨g, _, rfl⟩
    rfl

lemma leftMergeGdp_cons (G : List KV) (a : RndMeanRow) (L : List RndMeanRow) :
    leftMergeGdp (a :: L) G = gBlock G a ++ leftMergeGdp L G := rfl

lemma leftMergeEco_cons (E : List Eco3) (m : Mg1) (M : List Mg1) :
    leftMergeEco (m :: M) E = eBlock E m ++ leftMergeEco M E := rfl

lemma leftMergeEco_append (E : List Eco3) (M1 M2 : List Mg1) :
    leftMergeEco (M1 ++ M2) E = leftMergeEco M1 E ++ leftMergeEco M2 E :=
  cmap_append _ M1 M2

lemma leftMergeEco_len_const (E : List Eco3) :
    ∀ (ms : List Mg1) (k : String), (∀ m ∈ ms, m.c = k) →
      (leftMergeEco ms E).length = ms.length * max 1 (cntEco E k) := by
  intro ms
  induction ms with
  | nil => intro k _; simp [leftMergeEco, cmap]
  | cons m ms ih =>
    intro k hk
    have hm : m.c = k := hk m (List.mem_cons_self m ms)
    have hrest : ∀ x ∈ ms, x.c = k := fun x hx => hk x (List.mem_cons_of_mem m hx)
    have h1 : (eBlock E m).length = max 1 (cntEco E k) := by
      rw [eBlock_len, hm]
    rw [leftMergeEco_cons, List.length_append, h1, ih k hrest,
      List.length_cons, Nat.succ_mul]
    omega

/-- Per-row weight of the overview table: the number of overview rows one
aggregated investment row produces. -/
def weightGE (G : List KV) (E : List Eco3) (a : RndMeanRow) : Nat :=
  max 1 (cntKV G a.c) * max 1 (cntEco E a.c)

lemma weight_pos (G : List KV) (E : List Eco3) (a : RndMeanRow) :
    1 ≤ weightGE G E a := by
  have h := Nat.mul_le_mul (Nat.le_max_left 1 (cntKV G a.c))
    (Nat.le_max_left 1 (cntEco E a.c))
  simpa using h

lemma merged_cons (G : List KV) (E : List Eco3) (a : RndMeanRow)
    (L : List RndMeanRow) :
    (leftMergeEco (leftMergeGdp (a :: L) G) E).length =
      weightGE G E a + (leftMergeEco (leftMergeGdp L G) E).length := by
  rw [leftMergeGdp_cons, leftMergeEco_append, List.length_append]
  have h1 : (leftMergeEco (gBlock G a) E).length = weightGE G E a := by
    rw [leftMergeEco_len_const E (gBlock G a) a.c (gBlock_key G a), gBlock_len]
    rfl
  rw [h1]

lemma merged_length (G : List KV) (E : List Eco3) :
    ∀ L : List RndMeanRow,
      (leftMergeEco (leftMergeGdp L G) E).length =
        (L.map (fun a => weightGE G E a)).sum := by
  intro L
  induction L with
  | nil => rfl
  | cons a L ih => rw [merged_cons, ih, List.map_cons, List.sum_cons]

/-- The surviving inner-join rows of one aggregated investment row: its
matches in the indicator table, minus the rows dropped by `dropna`. -/
def survRows (ind : List KV) (a : RndMeanRow) : List PairRow :=
  ((matchesKV ind a.c).map (fun g => ⟨a.c, a.gbard, g.v⟩)).filter bothPresent

lemma mergePair_cons (ind : List KV) (a : RndMeanRow) (L : List RndMeanRow) :
    mergePair (a :: L) ind = survRows ind a ++ mergePair L ind := by
  show (cmap _ (a :: L)).filter bothPresent = _
  rw [cmap_cons, List.filter_append]
  rfl

lemma surv_le (ind : List KV) (a : RndMeanRow) :
    (survRows ind a).length ≤ cntKV ind a.c := by
  calc (survRows ind a).length
      ≤ ((matchesKV ind a.c).map (fun g => (⟨a.c, a.gbard, g.v⟩ : PairRow))).length :=
        List.length_filter_le _ _
    _ = cntKV ind a.c := by rw [List.length_map]; rfl

lemma filter_comp_map {α β : Type} (f : α → β) (p : β → Bool) (l : List α) :
    (l.map f).filter p = (l.filter (fun a => p (f a))).map f := by
  induction l with
  | nil => rfl
  | cons a l ih =>
    simp only [List.map_cons, List.filter_cons]
    cases p (f a) <;> simp [ih]

/-- Counting matches in a keyed projection of the indicator table is the
same as counting matching raw indicator rows. -/
lemma cnt_proj_eq (eco : List EcoRow) (f : EcoRow → KV)
    (hf : ∀ r, (f r).c = clean r.country) (k : String) :
    cntKV (eco.map f) k = cntEco (ecoProj3 eco) k := by
  unfold cntKV matchesKV cntEco matchesEco ecoProj3
  rw [filter_comp_map, filter_comp_map, List.length_map, List.length_map]
  have : (fun r : EcoRow => (f r).c == k) =
      (fun r : EcoRow =>
        (⟨clean r.country, r.interest, r.stock, r.inflation⟩ : Eco3).c == k) := by
    funext r
    rw [hf r]
  rw [this]

lemma sum_le_sum_of_le (f g : α → Nat) :
    ∀ l : List α, (∀ a ∈ l, f a ≤ g a) → (l.map f).sum ≤ (l.map g).sum := by
  intro l
  induction l with
  | nil => intro _; exact Nat.le_refl _
  | cons b l ih =>
    intro h
    simp only [List.map_cons, List.sum_cons]
    exact Nat.add_le_add (h b (List.mem_cons_self b l))
      (ih (fun x hx => h x (List.mem_cons_of_mem b hx)))

/-- Termwise-bounded sums that are equal are termwise equal. -/
lemma sum_eq_of_le (f g : α → Nat) :
    ∀ l : List α, (∀ a ∈ l, f a ≤ g a) →
      (l.map f).sum = (l.map g).sum → ∀ a ∈ l, f a = g a := by
  intro l
  induction l with
  | nil => intro _ _ a ha; cases ha
  | cons b l ih =>
    intro hle hsum a ha
    have hb : f b ≤ g b := hle b (List.mem_cons_self b l)
    have hrest : ∀ x ∈ l, f x ≤ g x := fun x hx => hle x (List.mem_cons_of_mem b hx)
    have hrle := sum_le_sum_of_le f g l hrest
    have hsum' : f b + (l.map f).sum = g b + (l.map g).sum := by simpa using hsum
    have hsums : (l.map f).sum = (l.map g).sum := by omega
    rcases List.mem_cons.mp ha with rfl | ha'
    · omega
    · exact ih hrest hsums a ha'

lemma le_weight_left (G : List KV) (E : List Eco3) (k : String) :
    cntKV G k ≤ max 1 (cntKV G k) * max 1 (cntEco E k) := by
  calc cntKV G k ≤ max 1 (cntKV G k) := Nat.le_max_right 1 _
    _ = max 1 (cntKV G k) * 1 := (Nat.mul_one _).symm
    _ ≤ max 1 (cntKV G k) * max 1 (cntEco E k) :=
        Nat.mul_le_mul_left _ (Nat.le_max_left 1 _)

lemma le_weight_right (G : List KV) (E : List Eco3) (k : String) :
    cntEco E k ≤ max 1 (cntKV G k) * max 1 (cntEco E k) := by
  calc cntEco E k ≤ max 1 (cntEco E k) := Nat.le_max_right 1 _
    _ = 1 * max 1 (cntEco E k) := (Nat.one_mul _).symm
    _ ≤ max 1 (cntKV G k) * max 1 (cntEco E k) :=
        Nat.mul_le_mul_right _ (Nat.le_max_left 1 _)

/-- Core comparison between one per-indicator inner-join-then-dropna table
and the left-joined overview table: the inner table never has more rows,
and row-count equality forces every aggregated investment row to have a
surviving (complete, non-missing) joined row. -/
theorem mergePair_core (G : List KV) (E : List Eco3) (ind : List KV)
    (hcnt : ∀ k, cntKV ind k ≤ max 1 (cntKV G k) * max 1 (cntEco E k)) :
    ∀ L : List RndMeanRow,
      (mergePair L ind).length ≤ (leftMergeEco (leftMergeGdp L G) E).length ∧
      ((mergePair L ind).length = (leftMergeEco (leftMergeGdp L G) E).length →
        ∀ a ∈ L, ∃ r ∈ mergePair L ind,
          r.c = a.c ∧ r.gbard.isSome = true ∧ r.v.isSome = true) := by
  intro L
  induction L with
  | nil =>
    constructor
    · exact Nat.le_refl _
    · intro _ b hb
      cases hb
  | cons a L ih =>
    have e1 : (mergePair (a :: L) ind).length =
        (survRows ind a).length + (mergePair L ind).length := by
      rw [mergePair_cons, List.length_append]
    have e2 := merged_cons G E a L
    have hterm : (survRows ind a).length ≤ weightGE G E a :=
      le_trans (surv_le ind a) (hcnt a.c)
    have hwpos := weight_pos G E a
    have hrest := ih.1
    constructor
    · rw [e1, e2]
      exact Nat.add_le_add hterm hrest
    · intro heq b hb
      rw [e1, e2] at heq
      have hsurv_eq : (survRows ind a).length = weightGE G E a := by omega
      have hrest_eq : (mergePair L ind).length =
          (leftMergeEco (leftMergeGdp L G) E).length := by omega
      rcases List.mem_cons.mp hb with rfl | hbL
      · have hpos : 0 < (survRows ind b).length := by omega
        obtain ⟨r, hr⟩ := List.exists_mem_of_length_pos hpos
        have hmf := List.mem_filter.mp hr
        obtain ⟨g, hg, hre⟩ := List.mem_map.mp hmf.1
        refine ⟨r, ?_, ?_⟩
        · rw [mergePair_cons]
          exact List.mem_append_left _ hr
        · have hbp := hmf.2
          subst hre
          rw [bothPresent, Bool.and_eq_true] at hbp
          exact ⟨rfl, hbp.1, hbp.2⟩
      · obtain ⟨r, hrmem, hrprops⟩ := ih.2 hrest_eq b hbL
        refine ⟨r, ?_, hrprops⟩
        rw [mergePair_cons]
        exact List.mem_append_right _ hrmem

/-
Claim theorems.
-/

/-- C1: the claim says the analysis step reports an explicit "insufficient
data" condition for per-indicator joined tables with fewer than 2 rows and
never produces a regression trend line there. The source (src/app.py
338-352) has no such branch: the step passes every joined table, including
this concrete one-row table, straight to the OLS trend-line chart and can
never produce an insufficient-data report. -/
theorem C1_no_insufficient_data_branch :
    (applyCountryFilter [] (gdpDf exRnd1 exGdp1)).length < 2 ∧
    analysisStep (applyCountryFilter [] (gdpDf exRnd1 exGdp1)) =
      AnalysisOutcome.chartWithTrendline (applyCountryFilter [] (gdpDf exRnd1 exGdp1)) ∧
    (∀ df : List PairRow, analysisStep df ≠ AnalysisOutcome.insufficientData) := by
  refine ⟨by decide, rfl, ?_⟩
  intro df h
  simp [analysisStep] at h

/-- C2: the claim says "Republic of Korea" and "South Korea" normalize to
one canonical key and are averaged into a single aggregated row. In the
source, the rule `replace("republic of ", "")` fires before the rule
`replace("korea, republic of", "south korea")`, so "Republic of Korea"
becomes "korea" while "South Korea" becomes "southkorea": the keys differ
and the two investment rows stay in two separate aggregated rows. -/
theorem C2_korea_keys_differ :
    clean "Republic of Korea" = "korea" ∧
    clean "South Korea" = "southkorea" ∧
    clean "Republic of Korea" ≠ clean "South Korea" ∧
    (rndMean [⟨"Republic of Korea", some 100⟩, ⟨"South Korea", some 200⟩]).map (·.c) =
      ["korea", "southkorea"] := by
  refine ⟨rfl, rfl, by decide, by decide⟩

/-- C3: for every raw country string in the replacement table of `clean`
(patterns and replacement spellings), normalization is deterministic (equal
inputs give equal keys) and idempotent (normalizing an already-normalized
key returns it unchanged). -/
theorem C3_normalization_idempotent :
    ∀ s : String, s ∈ aliasStrings →
      (∀ t : String, t = s → clean t = clean s) ∧
      clean (clean s) = clean s := by
  have h : ∀ s ∈ aliasStrings, clean (clean s) = clean s := by decide
  intro s hs
  exact ⟨fun t ht => by rw [ht], h s hs⟩

/-- C3 witness: the theorem applied to the concrete alias "czechia". -/
theorem C3_witness :
    ("czechia" ∈ aliasStrings) ∧ clean (clean "czechia") = clean "czechia" :=
  ⟨by decide, (C3_normalization_idempotent "czechia" (by decide)).2⟩

/-- The example GDP row of the claim: values [100, missing, 120, 110,
missing, 130] across 2020-2025. -/
def exGdpRow : GdpRow := ⟨"X", some 100, none, some 120, some 110, none, some 130⟩

/-- C6: the six-year GDP mean excludes missing cells from both the sum and
the divisor; the row [100, missing, 120, 110, missing, 130] yields
(100+120+110+130)/4 = 115, not the missing-as-zero value 460/6. -/
theorem C6_gdp_mean_skips_missing :
    (∀ r : GdpRow, gdpMeanVal r =
      (if ((yearCells r).filterMap id).isEmpty then none
       else some (((yearCells r).filterMap id).sum /
         (((yearCells r).filterMap id).length : ℚ)))) ∧
    gdpMeanVal exGdpRow = some 115 ∧
    gdpMeanVal exGdpRow ≠ some ((100 + 0 + 120 + 110 + 0 + 130) / 6 : ℚ) := by
  refine ⟨fun r => rfl, ?_, ?_⟩
  · simp [gdpMeanVal, yearCells, meanOpt, exGdpRow]
    norm_num
  · simp [gdpMeanVal, yearCells, meanOpt, exGdpRow]
    norm_num

/-- C9: the multiselect country parameter is a pure post-hoc row filter
over the already-joined per-indicator tables: an empty selection keeps
every joined row, a non-empty selection keeps exactly the rows whose
canonical key is selected, and the joined tables themselves do not depend
on the selection. -/
theorem C9_country_filter :
    ∀ (sel : List String) (rnd : List RndRow) (gdp : List GdpRow) (eco : List EcoRow),
      ∀ base ∈ [gdpDf rnd gdp, intDf rnd eco, infDf rnd eco, stkDf rnd eco],
        (sel = [] → applyCountryFilter sel base = base) ∧
        (sel ≠ [] → applyCountryFilter sel base =
          base.filter (fun r => sel.contains r.c)) ∧
        (∀ r, r ∈ applyCountryFilter sel base ↔
          r ∈ base ∧ (sel = [] ∨ sel.contains r.c = true)) := by
  intro sel rnd gdp eco base _
  refine ⟨?_, ?_, ?_⟩
  · intro h
    subst h
    rfl
  · intro h
    rw [applyCountryFilter, if_neg]
    simpa using h
  · intro r
    cases sel with
    | nil => simp [applyCountryFilter]
    | cons a l =>
      rw [applyCountryFilter]
      simp [List.mem_filter]

/-- C9 witness: the theorem applied to a singleton selection over the
concrete one-row joined table. -/
theorem C9_witness :
    applyCountryFilter ["japan"] (gdpDf exRnd1 exGdp1) =
      (gdpDf exRnd1 exGdp1).filter (fun r => (["japan"] : List String).contains r.c) :=
  ((C9_country_filter ["japan"] exRnd1 exGdp1 [] (gdpDf exRnd1 exGdp1)
    (List.mem_cons_self _ _)).2.1 (by simp))

/-- C10: the normalizer is total over arbitrary cell values: because the
body applies `str(x)` before `.strip()`, the method receiver is always a
string, so no `AttributeError` is raised for any cell value (strings,
integers, NaN, None) and the result is always the normalized string. -/
theorem C10_normalizer_total_on_cells :
    (∀ x : CellValue, cleanCellE x = Except.ok (clean (pyStr x))) ∧
    cleanCellE CellValue.nanV = Except.ok "nan" ∧
    cleanCellE CellValue.noneV = Except.ok "none" := by
  refine ⟨fun x => rfl, rfl, rfl⟩

/-- C8: a raw country string none of whose replacement patterns occur in
its stripped, lower-cased form passes through normalization with only case
folding and whitespace removal: the canonical key is exactly the stripped,
lower-cased input with its spaces removed, and no other character is
altered (and, the embedding being total, no error is raised). -/
theorem C8_unmapped_pass_through :
    ∀ s : String,
      (∀ pat ∈ cleanPatterns, containsPat pat (preCleanL s) = false) →
      clean s = ⟨(preCleanL s).filter (fun c => !(c == ' '))⟩ := by
  intro s h
  have h1 : replaceL (preCleanL s) patRepublicOf [] = preCleanL s :=
    replaceL_not_contains _ _ _ (h _ (by decide))
  have h2 : replaceL (preCleanL s) patOfAmerica [] = preCleanL s :=
    replaceL_not_contains _ _ _ (h _ (by decide))
  have h3 : replaceL (preCleanL s) patKoreaRep "south korea".data = preCleanL s :=
    replaceL_not_contains _ _ _ (h _ (by decide))
  have h4 : replaceL (preCleanL s) patCzechia "czech republic".data = preCleanL s :=
    replaceL_not_contains _ _ _ (h _ (by decide))
  have h5 : replaceL (preCleanL s) patVietNam "vietnam".data = preCleanL s :=
    replaceL_not_contains _ _ _ (h _ (by decide))
  have h6 : replaceL (preCleanL s) patChina "china".data = preCleanL s :=
    replaceL_not_contains _ _ _ (h _ (by decide))
  have h7 : replaceL (preCleanL s) patUSA "united states".data = preCleanL s :=
    replaceL_not_contains _ _ _ (h _ (by decide))
  have h8 : replaceL (preCleanL s) patUS "united states".data = preCleanL s :=
    replaceL_not_contains _ _ _ (h _ (by decide))
  have h9 : replaceL (preCleanL s) patUK "united kingdom".data = preCleanL s :=
    replaceL_not_contains _ _ _ (h _ (by decide))
  have hA : applyRules cleanRules (preCleanL s) = preCleanL s := by
    simp only [cleanRules, applyRules]
    rw [h1, h2, h3, h4, h5, h6, h7, h8, h9]
  show (⟨replaceL (applyRules cleanRules (preCleanL s)) [' '] []⟩ : String) = _
  rw [hA, replaceL_space]

/-- C8 witness: the unmapped country "Japan" normalizes to "japan". -/
theorem C8_witness :
    (∀ pat ∈ cleanPatterns, containsPat pat (preCleanL "Japan") = false) ∧
    clean "Japan" = ⟨(preCleanL "Japan").filter (fun c => !(c == ' '))⟩ ∧
    clean "Japan" = "japan" :=
  ⟨by decide, C8_unmapped_pass_through "Japan" (by decide), by decide⟩

/-- C5: the aggregated investment table has at most one row per canonical
key (its key column is duplicate-free), and each row's GBARD value is the
NaN-skipping mean of the GBARD cells of exactly the raw rows whose country
string normalizes to that key; when all those cells are present, this is
the arithmetic mean sum/count of their values. -/
theorem C5_aggregated_one_row_per_key :
    ∀ rnd : List RndRow,
      ((rndMean rnd).map (·.c)).Nodup ∧
      (∀ row, row ∈ rndMean rnd →
        row.gbard = meanOpt (groupVals rnd row.c)) ∧
      (∀ row, row ∈ rndMean rnd → ∀ vs : List ℚ,
        groupVals rnd row.c = vs.map some → vs ≠ [] →
        row.gbard = some (vs.sum / (vs.length : ℚ))) := by
  intro rnd
  refine ⟨?_, ?_, ?_⟩
  · have hmap : (rndMean rnd).map (·.c) = groupKeysSorted rnd := by
      rw [rndMean, List.map_map]
      exact List.map_id _
    rw [hmap]
    exact groupKeysSorted_nodup rnd
  · intro row hrow
    rcases List.mem_map.mp hrow with ⟨k, _, rfl⟩
    rfl
  · intro row hrow vs hvs hne
    rcases List.mem_map.mp hrow with ⟨k, _, rfl⟩
    show meanOpt (groupVals rnd k) = _
    have hvs' : groupVals rnd k = vs.map some := hvs
    rw [hvs', meanOpt]
    have hfm : (vs.map some).filterMap id = vs := by
      induction vs with
      | nil => rfl
      | cons a l ih => simp [List.filterMap_cons, ih]
    have hE : vs.isEmpty = false := by
      cases vs
      · exact absurd rfl hne
      · rfl
    rw [hfm, hE]
    rfl

/-- C5 witness: two raw rows for Germany collapse into the single
aggregated row whose value is the mean (10+20)/2 = 15. -/
theorem C5_witness :
    (⟨"germany", meanOpt (groupVals exRnd2 "germany")⟩ : RndMeanRow).gbard =
      some ((([10, 20] : List ℚ).sum / ((([10, 20] : List ℚ).length : ℚ)))) := by
  have hmem : (⟨"germany", meanOpt (groupVals exRnd2 "germany")⟩ : RndMeanRow) ∈
      rndMean exRnd2 := List.Mem.head _
  have hgv : groupVals exRnd2 "germany" = ([10, 20] : List ℚ).map some := by
    show groupVals exRnd2 "germany" = [some 10, some 20]
    decide
  exact (C5_aggregated_one_row_per_key exRnd2).2.2 _ hmem [10, 20] hgv (by decide)

lemma sum_map_ones {α : Type} (f : α → Nat) :
    ∀ l : List α, (∀ a ∈ l, f a = 1) → (l.map f).sum = l.length := by
  intro l
  induction l with
  | nil => intro _; rfl
  | cons a l ih =>
    intro h
    simp only [List.map_cons, List.sum_cons, List.length_cons]
    rw [h a (List.mem_cons_self a l), ih (fun x hx => h x (List.mem_cons_of_mem a hx))]
    omega

lemma cntKV_le_one_singleton (x : KV) (k : String) : cntKV [x] k ≤ 1 := by
  rw [cntKV, matchesKV]
  rcases h : (x.c == k) with _ | _ <;> simp [List.filter_cons, h]

/-- C4 counterexample: with the GDP rows "Czechia" and "Czech Republic" —
two distinct raw strings normalizing to the same canonical key — the
left-joined overview has 2 rows while the aggregated investment table has
1, so the row counts are not equal "regardless of how many rows match". -/
theorem C4_counterexample :
    ¬ ((mergedTables exRndCz exGdpDup []).length = (rndMean exRndCz).length) := by
  decide

/-- C4 (amended): if each canonical key matches at most one GDP row and at
most one economic-indicator row, the left-joined overview table has exactly
as many rows as the aggregated investment table (keys with zero matches
are still kept, NaN-filled). -/
theorem C4_left_join_preserves_count :
    ∀ (rnd : List RndRow) (gdp : List GdpRow) (eco : List EcoRow),
      (∀ k, cntKV (gdpProj gdp) k ≤ 1) →
      (∀ k, cntEco (ecoProj3 eco) k ≤ 1) →
      (mergedTables rnd gdp eco).length = (rndMean rnd).length := by
  intro rnd gdp eco hg he
  rw [mergedTables, merged_length]
  refine sum_map_ones _ _ ?_
  intro a _
  have h1 : max 1 (cntKV (gdpProj gdp) a.c) = 1 := by
    have := hg a.c
    omega
  have h2 : max 1 (cntEco (ecoProj3 eco) a.c) = 1 := by
    have := he a.c
    omega
  rw [weightGE, h1, h2]

/-- C4 witness: the amended theorem applied to concrete one-row tables. -/
theorem C4_witness :
    (mergedTables exRnd1 exGdp1 []).length = (rndMean exRnd1).length := by
  refine C4_left_join_preserves_count exRnd1 exGdp1 [] ?_ ?_
  · intro k
    exact cntKV_le_one_singleton ⟨clean "Japan", gdpMeanVal ⟨"Japan", some 1, none, none, none, none, none⟩⟩ k
  · intro k
    exact Nat.zero_le 1

/-- C7: every per-indicator inner-join-then-dropna table has at most as
many rows as the left-joined overview table, and row-count equality forces
every aggregated investment row to have a surviving joined row — a
matching indicator row with both the investment and the indicator value
present. -/
theorem C7_inner_le_overview :
    ∀ (rnd : List RndRow) (gdp : List GdpRow) (eco : List EcoRow),
      ∀ T ∈ [gdpDf rnd gdp, intDf rnd eco, infDf rnd eco, stkDf rnd eco],
        T.length ≤ (mergedTables rnd gdp eco).length ∧
        (T.length = (mergedTables rnd gdp eco).length →
          ∀ a ∈ rndMean rnd, ∃ r ∈ T,
            r.c = a.c ∧ r.gbard.isSome = true ∧ r.v.isSome = true) := by
  intro rnd gdp eco T hT
  have hGcnt : ∀ k, cntKV (gdpProj gdp) k ≤
      max 1 (cntKV (gdpProj gdp) k) * max 1 (cntEco (ecoProj3 eco) k) :=
    fun k => le_weight_left _ _ k
  have hEcore : ∀ (f : EcoRow → KV), (∀ r, (f r).c = clean r.country) →
      ∀ k, cntKV (eco.map f) k ≤
        max 1 (cntKV (gdpProj gdp) k) * max 1 (cntEco (ecoProj3 eco) k) := by
    intro f hf k
    rw [cnt_proj_eq eco f hf k]
    exact le_weight_right _ _ k
  simp only [List.mem_cons, List.not_mem_nil, or_false] at hT
  rcases hT with rfl | rfl | rfl | rfl
  · exact mergePair_core (gdpProj gdp) (ecoProj3 eco) (gdpProj gdp) hGcnt (rndMean rnd)
  · exact mergePair_core (gdpProj gdp) (ecoProj3 eco) (ecoProjInterest eco)
      (hEcore (fun r => ⟨clean r.country, r.interest⟩) (fun _ => rfl)) (rndMean rnd)
  · exact mergePair_core (gdpProj gdp) (ecoProj3 eco) (ecoProjInflation eco)
      (hEcore (fun r => ⟨clean r.country, r.inflation⟩) (fun _ => rfl)) (rndMean rnd)
  · exact mergePair_core (gdpProj gdp) (ecoProj3 eco) (ecoProjStock eco)
      (hEcore (fun r => ⟨clean r.country, r.stock⟩) (fun _ => rfl)) (rndMean rnd)

/-- C7 witness: on the concrete one-country dataset both counts are 1, and
the equality direction produces the surviving joined row for "japan". -/
theorem C7_witness :
    ∃ r ∈ gdpDf exRnd1 exGdp1,
      r.c = "japan" ∧ r.gbard.isSome = true ∧ r.v.isSome = true := by
  have h := (C7_inner_le_overview exRnd1 exGdp1 exEco1 (gdpDf exRnd1 exGdp1)
      (List.mem_cons_self _ _)).2 (by decide)
      ⟨"japan", meanOpt (groupVals exRnd1 "japan")⟩ (List.Mem.head _)
  exact h
